import Mathlib

/- Verification development for the findings parser and normalizer
   (src/tools/parse_findings.py). Python strings are modelled as lists
   of characters; Python ints as Int; fallible steps as Except/Option. -/

set_option autoImplicit false

/-- Python strings, modelled as lists of characters. -/
abbrev Str : Type := List Char

/-- Coerce a Lean string literal into the char-list model. -/
def str (s : String) : Str := s.data

/-- A draft finding record as built by the format adapters
    (the fields consulted by dedup and clustering). -/
structure Finding where
  tool : Str
  rule_id : Str
  cwe_id : Str
  file_path : Str
  start_line : Int
deriving DecidableEq, Inhabited, Repr

/-- A finding after `deduplicate_and_assign_weaknesses` has attached
    `unique_weakness_id` (the numeric counter behind the W-### label)
    and `is_cross_tool_dup`. -/
structure ClusteredFinding where
  tool : Str
  rule_id : Str
  cwe_id : Str
  file_path : Str
  start_line : Int
  unique_weakness_id : Nat
  is_cross_tool_dup : Bool
deriving DecidableEq, Inhabited, Repr

/-- One entry of the `weakness_map` list inside
    `deduplicate_and_assign_weaknesses` (cwe, file, line, weakness id). -/
structure Cluster where
  cwe : Str
  file : Str
  line : Int
  wid : Nat
deriving DecidableEq, Inhabited, Repr

/-- The within-tool dedup key `(f["tool"], f["rule_id"], f["file_path"], f["start_line"])`
    (parse_findings.py line 276). -/
def dedupKey (f : Finding) : Str × Str × Str × Int :=
  (f.tool, f.rule_id, f.file_path, f.start_line)

/-- Step 1 of `deduplicate_and_assign_weaknesses` (lines 272-279): keep the
    first record seen for each key; `seen` models the Python set. -/
def dedupeAux (seen : List (Str × Str × Str × Int)) : List Finding → List Finding
  | [] => []
  | f :: fs =>
    if dedupKey f ∈ seen then dedupeAux seen fs
    else f :: dedupeAux (dedupKey f :: seen) fs

/-- The within-tool deduplicator applied to the combined draft list. -/
def dedupe (findings : List Finding) : List Finding := dedupeAux [] findings

/-- The inner loop of step 2 (lines 286-295, 301): scan `weakness_map` in
    creation order; join the first cluster with the same non-empty cwe,
    same file and |line difference| <= 3, updating its anchor to the min.
    Returns the updated cluster list and the joined cluster's id. -/
def joinFirst (f : Finding) : List Cluster → Option (List Cluster × Nat)
  | [] => none
  | c :: cs =>
    if f.cwe_id ≠ [] ∧ f.cwe_id = c.cwe ∧ f.file_path = c.file ∧
        (f.start_line - c.line).natAbs ≤ 3 then
      some ({ c with line := min c.line f.start_line } :: cs, c.wid)
    else
      match joinFirst f cs with
      | none => none
      | some (cs', w) => some (c :: cs', w)

/-- Attach a weakness id and duplicate flag to a finding. -/
def mkClustered (f : Finding) (w : Nat) (d : Bool) : ClusteredFinding :=
  ⟨f.tool, f.rule_id, f.cwe_id, f.file_path, f.start_line, w, d⟩

/-- Step 2 of `deduplicate_and_assign_weaknesses` (lines 281-312): process the
    deduplicated list in order, joining the first fitting cluster or opening a
    fresh one with the incremented counter. -/
def clusterAll : List Cluster → Nat → List Finding → List ClusteredFinding
  | _, _, [] => []
  | cs, n, f :: fs =>
    match joinFirst f cs with
    | some (cs', w) => mkClustered f w true :: clusterAll cs' n fs
    | none =>
        mkClustered f (n + 1) false ::
          clusterAll (cs ++ [⟨f.cwe_id, f.file_path, f.start_line, n + 1⟩]) (n + 1) fs

/-- `deduplicate_and_assign_weaknesses` (lines 266-314): within-tool dedup
    followed by cross-tool weakness clustering. -/
def deduplicate_and_assign_weaknesses (findings : List Finding) : List ClusteredFinding :=
  clusterAll [] 0 (dedupe findings)

/-- Unfolding lemma: a finding that joins a cluster. -/
theorem clusterAll_cons_some {cs : List Cluster} {n : Nat} {f : Finding}
    {fs : List Finding} {cs' : List Cluster} {w : Nat}
    (hj : joinFirst f cs = some (cs', w)) :
    clusterAll cs n (f :: fs) = mkClustered f w true :: clusterAll cs' n fs := by
  simp [clusterAll, hj]

/-- Unfolding lemma: a finding that opens a fresh cluster. -/
theorem clusterAll_cons_none {cs : List Cluster} {n : Nat} {f : Finding}
    {fs : List Finding} (hj : joinFirst f cs = none) :
    clusterAll cs n (f :: fs) =
      mkClustered f (n + 1) false ::
        clusterAll (cs ++ [⟨f.cwe_id, f.file_path, f.start_line, n + 1⟩]) (n + 1) fs := by
  simp [clusterAll, hj]

/-- When `joinFirst` succeeds, the returned id belongs to an existing cluster
    and the cluster ids are unchanged (only the anchor moved). -/
theorem joinFirst_wid_mem (f : Finding) :
    ∀ (cs cs' : List Cluster) (w : Nat), joinFirst f cs = some (cs', w) →
      w ∈ cs.map (fun c => c.wid) ∧
        cs'.map (fun c => c.wid) = cs.map (fun c => c.wid) := by
  intro cs
  induction cs with
  | nil => intro cs' w h; simp [joinFirst] at h
  | cons c cs ih =>
    intro cs' w h
    rw [joinFirst] at h
    split at h
    · simp only [Option.some.injEq, Prod.mk.injEq] at h
      obtain ⟨h1, h2⟩ := h
      subst h1 h2
      simp
    · cases hj : joinFirst f cs with
      | none => rw [hj] at h; simp at h
      | some p =>
        obtain ⟨cs0, w0⟩ := p
        rw [hj] at h
        simp only [Option.some.injEq, Prod.mk.injEq] at h
        obtain ⟨h1, h2⟩ := h
        subst h1 h2
        obtain ⟨hmem, hmap⟩ := ih cs0 w0 hj
        constructor
        · simp [hmem]
        · simp [hmap]

/-- Every output record flagged as a duplicate either carries the id of a
    cluster that was already open on entry, or the id of an earlier output
    record of the same run of `clusterAll`. -/
theorem clusterAll_dup_earlier (fs : List Finding) :
    ∀ (cs : List Cluster) (n i : Nat),
      i < (clusterAll cs n fs).length →
      ((clusterAll cs n fs).getD i default).is_cross_tool_dup = true →
      ((clusterAll cs n fs).getD i default).unique_weakness_id ∈
          cs.map (fun c => c.wid) ∨
        ∃ j, j < i ∧
          ((clusterAll cs n fs).getD j default).unique_weakness_id =
            ((clusterAll cs n fs).getD i default).unique_weakness_id := by
  induction fs with
  | nil => intro cs n i hi; simp [clusterAll] at hi
  | cons f fs ih =>
    intro cs n i hi hdup
    cases hj : joinFirst f cs with
    | some p =>
      obtain ⟨cs', w⟩ := p
      rw [clusterAll_cons_some hj] at hi hdup ⊢
      cases i with
      | zero =>
        left
        simpa [mkClustered] using (joinFirst_wid_mem f cs cs' w hj).1
      | succ i =>
        simp only [List.getD_cons_succ] at hdup ⊢
        simp only [List.length_cons, Nat.succ_lt_succ_iff] at hi
        rcases ih cs' n i hi hdup with hmem | ⟨j, hji, heq⟩
        · left
          rwa [(joinFirst_wid_mem f cs cs' w hj).2] at hmem
        · right
          exact ⟨j + 1, by omega, by simpa using heq⟩
    | none =>
      rw [clusterAll_cons_none hj] at hi hdup ⊢
      cases i with
      | zero => simp [mkClustered] at hdup
      | succ i =>
        simp only [List.getD_cons_succ] at hdup ⊢
        simp only [List.length_cons, Nat.succ_lt_succ_iff] at hi
        rcases ih _ (n + 1) i hi hdup with hmem | ⟨j, hji, heq⟩
        · rw [List.map_append, List.mem_append] at hmem
          rcases hmem with hcs | hnew
          · left; exact hcs
          · right
            refine ⟨0, by omega, ?_⟩
            have hnew' : ((clusterAll
                (cs ++ [⟨f.cwe_id, f.file_path, f.start_line, n + 1⟩]) (n + 1)
                  fs).getD i default).unique_weakness_id = n + 1 := by
              simpa using hnew
            simp only [List.getD_cons_zero, mkClustered]
            exact hnew'.symm
        · right
          exact ⟨j + 1, by omega, by simpa using heq⟩

/-- The three findings of the clustering scenario in the spec: category
    CWE-89, one file F, start lines 10, 13, 16. -/
def c1Finding (line : Int) : Finding :=
  ⟨str "codeql", str "sql-injection", str "CWE-89", str "F", line⟩

/-- C1 counterexample: on the deduplicated list with start lines [10, 13, 16]
    the clusterer does NOT give all three findings one unique_weakness_id:
    the anchor of the first cluster is updated with min and stays at 10, so
    the finding at line 16 (distance 6 > 3) opens a second cluster. -/
theorem c1_not_one_cluster_counterexample :
    ¬ ∃ w, (deduplicate_and_assign_weaknesses
        [c1Finding 10, c1Finding 13, c1Finding 16]).map
          (fun f => f.unique_weakness_id) = [w, w, w] := by
  have h : (deduplicate_and_assign_weaknesses
      [c1Finding 10, c1Finding 13, c1Finding 16]).map
        (fun f => f.unique_weakness_id) = [1, 1, 2] := by decide
  rw [h]
  rintro ⟨w, hw⟩
  simp only [List.cons.injEq, and_true] at hw
  omega

/-- C1 amended: for the input order [10, 13, 16] the clusterer produces two
    clusters: the findings at 10 and 13 share weakness id 1 (13 is marked as
    a cross-tool duplicate), while the finding at 16 receives the fresh
    weakness id 2 because the line anchor only moves downward. -/
theorem c1_three_findings_two_clusters :
    deduplicate_and_assign_weaknesses [c1Finding 10, c1Finding 13, c1Finding 16] =
      [⟨str "codeql", str "sql-injection", str "CWE-89", str "F", 10, 1, false⟩,
       ⟨str "codeql", str "sql-injection", str "CWE-89", str "F", 13, 1, true⟩,
       ⟨str "codeql", str "sql-injection", str "CWE-89", str "F", 16, 2, false⟩] := by
  decide

/-- The claim that every record flagged `is_cross_tool_dup` has an earlier
    record in the same cluster coming from a DIFFERENT tool. -/
def crossToolSound (out : List ClusteredFinding) : Prop :=
  ∀ i, i < out.length → (out.getD i default).is_cross_tool_dup = true →
    ∃ g ∈ out.take i,
      g.unique_weakness_id = (out.getD i default).unique_weakness_id ∧
        g.tool ≠ (out.getD i default).tool

/-- Two findings of the same tool, nearby lines, same category. -/
def c2Finding (line : Int) : Finding :=
  ⟨str "codeql", str "sql-injection", str "CWE-89", str "app.py", line⟩

/-- C2 counterexample: two findings from the SAME tool (codeql) at lines 10
    and 12 of one file with category CWE-89 survive within-tool dedup (their
    start lines differ), the second joins the first one's cluster and is
    marked is_cross_tool_dup although no record of another tool exists. -/
theorem c2_same_tool_flagged_counterexample :
    ¬ crossToolSound
        (deduplicate_and_assign_weaknesses [c2Finding 10, c2Finding 12]) := by
  intro h
  have hout : deduplicate_and_assign_weaknesses [c2Finding 10, c2Finding 12] =
      [⟨str "codeql", str "sql-injection", str "CWE-89", str "app.py", 10, 1, false⟩,
       ⟨str "codeql", str "sql-injection", str "CWE-89", str "app.py", 12, 1, true⟩] := by
    decide
  rw [hout] at h
  obtain ⟨g, hg, -, htool⟩ := h 1 (by decide) (by decide)
  simp only [List.take_succ_cons, List.take_zero, List.mem_singleton] at hg
  subst hg
  exact htool (by decide)

/-- C2 amended: every record flagged is_cross_tool_dup = true has an earlier
    retained record with the same unique_weakness_id, but that record may come
    from any tool (the clusterer never inspects the tool field). -/
theorem c2_dup_has_earlier_cluster_member (l : List Finding) (i : Nat)
    (hi : i < (deduplicate_and_assign_weaknesses l).length)
    (hdup : ((deduplicate_and_assign_weaknesses l).getD i default).is_cross_tool_dup
      = true) :
    ∃ j, j < i ∧
      ((deduplicate_and_assign_weaknesses l).getD j default).unique_weakness_id =
        ((deduplicate_and_assign_weaknesses l).getD i default).unique_weakness_id := by
  have h := clusterAll_dup_earlier (dedupe l) [] 0 i
    (by simpa [deduplicate_and_assign_weaknesses] using hi)
    (by simpa [deduplicate_and_assign_weaknesses] using hdup)
  simpa [deduplicate_and_assign_weaknesses] using h

/-- C2 witness: in the two-finding same-tool run, the record at index 1 is a
    flagged duplicate and indeed shares its weakness id with an earlier record. -/
theorem c2_dup_witness :
    ∃ j, j < 1 ∧
      ((deduplicate_and_assign_weaknesses [c2Finding 10, c2Finding 12]).getD j
          default).unique_weakness_id =
        ((deduplicate_and_assign_weaknesses [c2Finding 10, c2Finding 12]).getD 1
          default).unique_weakness_id :=
  c2_dup_has_earlier_cluster_member [c2Finding 10, c2Finding 12] 1
    (by decide) (by decide)

/-- The set of dedup keys known after scanning a list of findings, starting
    from `seen` (tracks the `seen` set of the Python loop). -/
def seenAfter : List (Str × Str × Str × Int) → List Finding →
    List (Str × Str × Str × Int)
  | seen, [] => seen
  | seen, f :: fs =>
      seenAfter (if dedupKey f ∈ seen then seen else dedupKey f :: seen) fs

/-- A key is known after a scan iff it was known before or occurs in the list. -/
theorem mem_seenAfter (l : List Finding) :
    ∀ (seen : List (Str × Str × Str × Int)) (k : Str × Str × Str × Int),
      k ∈ seenAfter seen l ↔ k ∈ seen ∨ ∃ f ∈ l, dedupKey f = k := by
  induction l with
  | nil => intro seen k; simp [seenAfter]
  | cons f fs ih =>
    intro seen k
    by_cases hf : dedupKey f ∈ seen
    · rw [seenAfter, if_pos hf, ih]
      constructor
      · rintro (hk | ⟨g, hg, hgk⟩)
        · exact Or.inl hk
        · exact Or.inr ⟨g, List.mem_cons_of_mem f hg, hgk⟩
      · rintro (hk | ⟨g, hg, hgk⟩)
        · exact Or.inl hk
        · rcases List.mem_cons.mp hg with rfl | hg'
          · exact Or.inl (hgk ▸ hf)
          · exact Or.inr ⟨g, hg', hgk⟩
    · rw [seenAfter, if_neg hf, ih]
      constructor
      · rintro (hk | ⟨g, hg, hgk⟩)
        · rcases List.mem_cons.mp hk with rfl | hk'
          · exact Or.inr ⟨f, List.mem_cons_self f fs, rfl⟩
          · exact Or.inl hk'
        · exact Or.inr ⟨g, List.mem_cons_of_mem f hg, hgk⟩
      · rintro (hk | ⟨g, hg, hgk⟩)
        · exact Or.inl (List.mem_cons_of_mem _ hk)
        · rcases List.mem_cons.mp hg with rfl | hg'
          · exact Or.inl (hgk ▸ List.mem_cons_self _ seen)
          · exact Or.inr ⟨g, hg', hgk⟩

/-- Scanning a concatenation: the second part is scanned with the keys
    accumulated over the first part. -/
theorem dedupeAux_append (a : List Finding) :
    ∀ (b : List Finding) (seen : List (Str × Str × Str × Int)),
      dedupeAux seen (a ++ b) =
        dedupeAux seen a ++ dedupeAux (seenAfter seen a) b := by
  induction a with
  | nil => intro b seen; simp [dedupeAux, seenAfter]
  | cons f fs ih =>
    intro b seen
    by_cases hf : dedupKey f ∈ seen
    · rw [List.cons_append, dedupeAux, if_pos hf, dedupeAux, if_pos hf,
        seenAfter, if_pos hf, ih]
    · rw [List.cons_append, dedupeAux, if_neg hf, dedupeAux, if_neg hf,
        seenAfter, if_neg hf, ih, List.cons_append]

/-- A scan whose every key is already known produces nothing. -/
theorem dedupeAux_eq_nil (l : List Finding) :
    ∀ (seen : List (Str × Str × Str × Int)),
      (∀ f ∈ l, dedupKey f ∈ seen) → dedupeAux seen l = [] := by
  induction l with
  | nil => intro seen _; rfl
  | cons f fs ih =>
    intro seen h
    rw [dedupeAux, if_pos (h f (List.mem_cons_self f fs))]
    exact ih seen (fun g hg => h g (List.mem_cons_of_mem f hg))

/-- A finding is retained by the scan iff its key is new and it is the first
    record of the remaining list carrying its key. -/
theorem mem_dedupeAux (l : List Finding) :
    ∀ (seen : List (Str × Str × Str × Int)) (f : Finding),
      f ∈ dedupeAux seen l ↔
        (dedupKey f ∉ seen ∧
          l.find? (fun g => decide (dedupKey g = dedupKey f)) = some f) := by
  induction l with
  | nil => intro seen f; simp [dedupeAux]
  | cons g gs ih =>
    intro seen f
    by_cases hk : dedupKey g = dedupKey f
    · by_cases hs : dedupKey g ∈ seen
      · rw [dedupeAux, if_pos hs, ih]
        rw [List.find?_cons_of_pos _ (by simpa using hk)]
        constructor
        · rintro ⟨hns, hfind⟩
          exact absurd (hk ▸ hs) hns
        · rintro ⟨hns, hgf⟩
          exact absurd (hk ▸ hs) hns
      · rw [dedupeAux, if_neg hs]
        rw [List.find?_cons_of_pos _ (by simpa using hk)]
        constructor
        · intro hmem
          rcases List.mem_cons.mp hmem with rfl | hmem'
          · exact ⟨hk ▸ hs, rfl⟩
          · rcases (ih _ f).mp hmem' with ⟨hns, -⟩
            exact absurd (hk ▸ List.mem_cons_self _ seen) hns
        · rintro ⟨-, hgf⟩
          simp only [Option.some.injEq] at hgf
          exact hgf ▸ List.mem_cons_self g (dedupeAux (dedupKey g :: seen) gs)
    · have hne : ¬ (decide (dedupKey g = dedupKey f) = true) := by simpa using hk
      by_cases hs : dedupKey g ∈ seen
      · rw [dedupeAux, if_pos hs, ih,
          List.find?_cons_of_neg (p := fun g => decide (dedupKey g = dedupKey f)) _ hne]
      · rw [dedupeAux, if_neg hs,
          List.find?_cons_of_neg (p := fun g => decide (dedupKey g = dedupKey f)) _ hne]
        constructor
        · intro hmem
          rcases List.mem_cons.mp hmem with rfl | hmem'
          · exact absurd rfl hk
          · rcases (ih _ f).mp hmem' with ⟨hns, hfind⟩
            refine ⟨fun hmem'' => hns (List.mem_cons_of_mem _ hmem''), hfind⟩
        · rintro ⟨hns, hfind⟩
          refine List.mem_cons_of_mem g ((ih _ f).mpr ⟨?_, hfind⟩)
          intro hmem''
          rcases List.mem_cons.mp hmem'' with hkk | hmem3
          · exact hk hkk.symm
          · exact hns hmem3

/-- The id scan of `main` (lines 382-389): starting from 1, fold
    `next_id = max(next_id, num + 1)` over the numeric suffixes of the
    `finding_id` column of the existing store. -/
def nextIdFrom (nums : List Nat) : Nat :=
  nums.foldl (fun acc n => max acc (n + 1)) 1

/-- The id assignment loop of `main` (lines 391-393): the new records get
    consecutive numbers starting at `start`, in output order. -/
def assignIds (start k : Nat) : List Nat :=
  (List.range k).map (fun i => start + i)

/-- The fold behind `nextIdFrom` never goes below its accumulator. -/
theorem le_foldNextId (l : List Nat) :
    ∀ i : Nat, i ≤ l.foldl (fun acc n => max acc (n + 1)) i := by
  induction l with
  | nil => intro i; exact Nat.le_refl i
  | cons n l ih =>
    intro i
    exact Nat.le_trans (Nat.le_max_left i (n + 1)) (ih (max i (n + 1)))

/-- Every scanned suffix is strictly below the fold result. -/
theorem mem_lt_foldNextId (l : List Nat) :
    ∀ i n : Nat, n ∈ l → n + 1 ≤ l.foldl (fun acc n => max acc (n + 1)) i := by
  induction l with
  | nil => intro i n hn; simp at hn
  | cons m l ih =>
    intro i n hn
    rcases List.mem_cons.mp hn with rfl | hn'
    · exact Nat.le_trans (Nat.le_max_right i (n + 1)) (le_foldNextId l _)
    · exact ih _ n hn'

/-- The fold stays below any bound dominating the accumulator and all
    scanned suffixes plus one. -/
theorem foldNextId_le (l : List Nat) :
    ∀ i c : Nat, i ≤ c → (∀ n ∈ l, n + 1 ≤ c) →
      l.foldl (fun acc n => max acc (n + 1)) i ≤ c := by
  induction l with
  | nil => intro i c hi _; exact hi
  | cons n l ih =>
    intro i c hi h
    refine ih _ c (Nat.max_le.mpr ⟨hi, h n (List.mem_cons_self n l)⟩) ?_
    exact fun m hm => h m (List.mem_cons_of_mem n hm)

/-- C3: when the maximum numeric suffix in the persisted store is M, the new
    invocation starts at M + 1, assigns M + 1, M + 2, ... in output order,
    every new suffix exceeds every stored one, and the new suffixes strictly
    increase within the invocation. -/
theorem c3_id_allocation (nums : List Nat) (M k : Nat)
    (hM : M ∈ nums) (hmax : ∀ n ∈ nums, n ≤ M) :
    nextIdFrom nums = M + 1
    ∧ assignIds (nextIdFrom nums) k = (List.range k).map (fun i => M + 1 + i)
    ∧ (∀ n ∈ nums, ∀ m ∈ assignIds (nextIdFrom nums) k, n < m)
    ∧ List.Pairwise (fun a b => a < b) (assignIds (nextIdFrom nums) k) := by
  have h1 : nextIdFrom nums = M + 1 := by
    refine Nat.le_antisymm ?_ (mem_lt_foldNextId nums 1 M hM)
    exact foldNextId_le nums 1 (M + 1) (by omega)
      (fun n hn => by have := hmax n hn; omega)
  refine ⟨h1, by rw [h1, assignIds], ?_, ?_⟩
  · intro n hn m hm
    rw [h1, assignIds] at hm
    obtain ⟨i, -, rfl⟩ := List.mem_map.mp hm
    have := hmax n hn
    omega
  · rw [h1, assignIds, List.pairwise_map]
    exact (List.pairwise_lt_range k).imp (fun h => by omega)

/-- C3 witness: a store whose suffixes are [7, 3] (maximum 7) makes the next
    invocation allocate 8 and 9, both above every stored suffix. -/
theorem c3_id_allocation_witness :
    nextIdFrom [7, 3] = 7 + 1 ∧ (7 : Nat) < 8 :=
  ⟨(c3_id_allocation [7, 3] 7 2 (by decide) (by decide)).1,
    (c3_id_allocation [7, 3] 7 2 (by decide) (by decide)).2.2.1 7 (by decide)
      8 (by decide)⟩

/-- C7: the within-tool deduplicator retains a record exactly when it is the
    first record in arrival order carrying its (tool, rule_id, file_path,
    start_line) key, and appending a second copy of a report to the batch
    leaves the retained set unchanged. -/
theorem c7_dedupe_first_per_key (xs ys : List Finding) (f : Finding) :
    (f ∈ dedupe xs ↔
      xs.find? (fun g => decide (dedupKey g = dedupKey f)) = some f)
    ∧ dedupe ((xs ++ ys) ++ ys) = dedupe (xs ++ ys) := by
  constructor
  · rw [dedupe, mem_dedupeAux]
    simp
  · rw [dedupe, dedupe, dedupeAux_append, dedupeAux_eq_nil ys _ ?_,
      List.append_nil]
    intro g hg
    rw [mem_seenAfter]
    exact Or.inr ⟨g, List.mem_append_right xs hg, rfl⟩

/-- Sequential parsing of the supplied reports in `main` (lines 336-359):
    each adapter either returns its draft findings or raises on a
    structurally invalid file; the first failure aborts the run, otherwise
    the per-tool lists are concatenated in order into `all_findings`. -/
def collectFindings : List (Except String (List Finding)) →
    Except String (List Finding)
  | [] => Except.ok []
  | r :: rs =>
    match r with
    | Except.error e => Except.error e
    | Except.ok fs =>
      match collectFindings rs with
      | Except.error e => Except.error e
      | Except.ok rest => Except.ok (fs ++ rest)

/-- One invocation of `main` against a persisted store (rows paired with the
    numeric suffix of their finding_id): parse every supplied report, then
    dedup and cluster, then scan the store for the next id, then append.
    The append (lines 403-408) runs only after all parsing succeeded; an
    error leaves the store untouched. -/
def runInvocation (reports : List (Except String (List Finding)))
    (store : List (Nat × ClusteredFinding)) :
    Except String (List (Nat × ClusteredFinding)) :=
  match collectFindings reports with
  | Except.error e => Except.error e
  | Except.ok allFindings =>
    let processed := deduplicate_and_assign_weaknesses allFindings
    let ids := assignIds (nextIdFrom (store.map Prod.fst)) processed.length
    Except.ok (store ++ ids.zip processed)

/-- If any supplied report fails to parse, collection fails. -/
theorem collectFindings_error (reports : List (Except String (List Finding)))
    (h : ∃ r ∈ reports, ∃ e, r = Except.error e) :
    ∃ e, collectFindings reports = Except.error e := by
  induction reports with
  | nil => simp at h
  | cons r rs ih =>
    obtain ⟨r', hr', e, he⟩ := h
    rcases List.mem_cons.mp hr' with rfl | hmem
    · subst he
      exact ⟨e, rfl⟩
    · cases r with
      | error e0 => exact ⟨e0, rfl⟩
      | ok fs =>
        obtain ⟨e1, he1⟩ := ih ⟨r', hmem, e, he⟩
        refine ⟨e1, ?_⟩
        rw [collectFindings, he1]

/-- If every supplied report parses, collection succeeds. -/
theorem collectFindings_ok (reports : List (Except String (List Finding)))
    (h : ∀ r ∈ reports, ∃ fs, r = Except.ok fs) :
    ∃ allFindings, collectFindings reports = Except.ok allFindings := by
  induction reports with
  | nil => exact ⟨[], rfl⟩
  | cons r rs ih =>
    obtain ⟨fs, hfs⟩ := h r (List.mem_cons_self r rs)
    subst hfs
    obtain ⟨rest, hrest⟩ := ih (fun r' hr' => h r' (List.mem_cons_of_mem _ hr'))
    refine ⟨fs ++ rest, ?_⟩
    rw [collectFindings, hrest]

/-- C5: when any supplied report is structurally invalid the invocation fails
    and nothing is appended to the store; when every report parses, the result
    is exactly the old store with the new rows appended after it. -/
theorem c5_no_partial_write (reports : List (Except String (List Finding)))
    (store : List (Nat × ClusteredFinding)) :
    ((∃ r ∈ reports, ∃ e, r = Except.error e) →
      ∃ e, runInvocation reports store = Except.error e)
    ∧ ((∀ r ∈ reports, ∃ fs, r = Except.ok fs) →
      ∃ rows, runInvocation reports store = Except.ok (store ++ rows)) := by
  constructor
  · intro h
    obtain ⟨e, he⟩ := collectFindings_error reports h
    refine ⟨e, ?_⟩
    rw [runInvocation, he]
  · intro h
    obtain ⟨allFindings, hall⟩ := collectFindings_ok reports h
    refine ⟨(assignIds (nextIdFrom (store.map Prod.fst))
        (deduplicate_and_assign_weaknesses allFindings).length).zip
          (deduplicate_and_assign_weaknesses allFindings), ?_⟩
    rw [runInvocation, hall]

/-- C5 witness: a run with one malformed report errors out against the empty
    store, while a run whose single report parses appends to it. -/
theorem c5_no_partial_write_witness :
    (∃ e, runInvocation [Except.error "invalid json"] [] = Except.error e)
    ∧ (∃ rows, runInvocation [Except.ok [c1Finding 10]] [] =
        Except.ok ([] ++ rows)) :=
  ⟨(c5_no_partial_write [Except.error "invalid json"] []).1
      ⟨Except.error "invalid json", List.mem_singleton.mpr rfl,
        "invalid json", rfl⟩,
    (c5_no_partial_write [Except.ok [c1Finding 10]] []).2
      (fun r hr => ⟨[c1Finding 10], List.mem_singleton.mp hr⟩)⟩

/-- `normalize_cvss_severity` (lines 49-57); scores are modelled as
    rationals (the thresholds 9.0, 7.0, 4.0 are exact in binary floating
    point, so comparisons agree). -/
def normalize_cvss_severity (cvss_score : ℚ) : String :=
  if 9 ≤ cvss_score then "critical"
  else if 7 ≤ cvss_score then "high"
  else if 4 ≤ cvss_score then "medium"
  else "low"

/-- C6: on the 0.0-10.0 scale the normalizer returns critical iff s >= 9,
    high iff 7 <= s < 9, medium iff 4 <= s < 7 and low iff s < 4; every
    threshold is inclusive at its lower bound. -/
theorem c6_cvss_thresholds (s : ℚ) (h0 : 0 ≤ s) (h10 : s ≤ 10) :
    (normalize_cvss_severity s = "critical" ↔ 9 ≤ s)
    ∧ (normalize_cvss_severity s = "high" ↔ 7 ≤ s ∧ s < 9)
    ∧ (normalize_cvss_severity s = "medium" ↔ 4 ≤ s ∧ s < 7)
    ∧ (normalize_cvss_severity s = "low" ↔ s < 4) := by
  simp only [normalize_cvss_severity]
  split_ifs with h9 h7 h4
  · exact ⟨iff_of_true rfl h9,
      iff_of_false (by decide) (fun h => by linarith [h.2]),
      iff_of_false (by decide) (fun h => by linarith [h.2]),
      iff_of_false (by decide) (fun h => by linarith)⟩
  · exact ⟨iff_of_false (by decide) (fun h => h9 h),
      iff_of_true rfl ⟨h7, not_le.mp h9⟩,
      iff_of_false (by decide) (fun h => by linarith [h.2]),
      iff_of_false (by decide) (fun h => by linarith)⟩
  · exact ⟨iff_of_false (by decide) (fun h => h9 h),
      iff_of_false (by decide) (fun h => h7 h.1),
      iff_of_true rfl ⟨h4, not_le.mp h7⟩,
      iff_of_false (by decide) (fun h => by linarith)⟩
  · exact ⟨iff_of_false (by decide) (fun h => h9 h),
      iff_of_false (by decide) (fun h => h7 h.1),
      iff_of_false (by decide) (fun h => h4 h.1),
      iff_of_true rfl (not_le.mp h4)⟩

/-- C6 witness: score 9.0 gives critical, exactly 7.0 gives high, exactly
    4.0 gives medium, 3.9 gives low. -/
theorem c6_cvss_thresholds_witness :
    normalize_cvss_severity 9 = "critical"
    ∧ normalize_cvss_severity 7 = "high"
    ∧ normalize_cvss_severity 4 = "medium"
    ∧ normalize_cvss_severity (39 / 10) = "low" :=
  ⟨(c6_cvss_thresholds 9 (by norm_num) (by norm_num)).1.mpr (by norm_num),
    (c6_cvss_thresholds 7 (by norm_num) (by norm_num)).2.1.mpr
      (by norm_num),
    (c6_cvss_thresholds 4 (by norm_num) (by norm_num)).2.2.1.mpr
      (by norm_num),
    (c6_cvss_thresholds (39 / 10) (by norm_num) (by norm_num)).2.2.2.mpr
      (by norm_num)⟩

/-- The CODEQL_SEVERITY_MAP dictionary (lines 36-41), as a partial lookup. -/
def CODEQL_SEVERITY_MAP (level : Str) : Option Str :=
  if level = str "error" then some (str "high")
  else if level = str "warning" then some (str "medium")
  else if level = str "note" then some (str "low")
  else if level = str "none" then some (str "info")
  else none

/-- `CODEQL_SEVERITY_MAP.get(level, "medium")` (lines 112 and 186). -/
def severityFromLevel (level : Str) : Str :=
  (CODEQL_SEVERITY_MAP level).getD (str "medium")

/-- C8: the SARIF severity table maps error to high, warning to medium, note
    to low, none to info, and any level outside the table to medium. -/
theorem c8_severity_table (level : Str) :
    severityFromLevel (str "error") = str "high"
    ∧ severityFromLevel (str "warning") = str "medium"
    ∧ severityFromLevel (str "note") = str "low"
    ∧ severityFromLevel (str "none") = str "info"
    ∧ (level ≠ str "error" → level ≠ str "warning" → level ≠ str "note" →
        level ≠ str "none" → severityFromLevel level = str "medium") := by
  refine ⟨by decide, by decide, by decide, by decide, ?_⟩
  intro h1 h2 h3 h4
  rw [severityFromLevel, CODEQL_SEVERITY_MAP, if_neg h1, if_neg h2, if_neg h3,
    if_neg h4]
  rfl

/-- C8 witness: the unmapped level "fatal" normalizes to medium, and the
    mapped level "error" to high. -/
theorem c8_severity_table_witness :
    severityFromLevel (str "fatal") = str "medium"
    ∧ severityFromLevel (str "error") = str "high" :=
  ⟨(c8_severity_table (str "fatal")).2.2.2.2 (by decide) (by decide)
      (by decide) (by decide),
    (c8_severity_table (str "fatal")).1⟩

/-- The `artifactLocation` object of a SARIF physical location. -/
structure SarifArtifactLocation where
  uri : Option Str
deriving DecidableEq, Inhabited

/-- The `region` object of a SARIF physical location. -/
structure SarifRegion where
  startLine : Option Int
deriving DecidableEq, Inhabited

/-- The `physicalLocation` object of a SARIF location. -/
structure SarifPhysicalLocation where
  artifactLocation : Option SarifArtifactLocation
  region : Option SarifRegion
deriving DecidableEq, Inhabited

/-- One entry of a SARIF result's `locations` array. -/
structure SarifLocation where
  physicalLocation : Option SarifPhysicalLocation
deriving DecidableEq, Inhabited

/-- The location-bearing part of a SARIF result: `locations` may be absent
    (modelled as none) or present with any number of entries. -/
structure SarifResult where
  locations : Option (List SarifLocation)
deriving DecidableEq, Inhabited

/-- The shared location extraction of the CodeQL, Semgrep-SARIF and Gitleaks
    adapters (lines 105-108, 180-183, 212-215):
    `locations = result.get("locations", [{}])`, then
    `phys = locations[0].get("physicalLocation", {}) if locations else {}`,
    with defaults "" for the uri and 0 for the start line. The option result
    records whether the `locations[0]` indexing was in range. -/
def extractFirstLocation (r : SarifResult) : Option (Str × Int) :=
  let locs := r.locations.getD [⟨none⟩]
  if locs.isEmpty then
    some ([], 0)
  else
    match locs.get? 0 with
    | none => none
    | some loc =>
      let phys := loc.physicalLocation.getD ⟨none, none⟩
      some ((phys.artifactLocation.getD ⟨none⟩).uri.getD [],
        (phys.region.getD ⟨none⟩).startLine.getD 0)

/-- C9: location extraction never fails on an out-of-range index, and a
    missing or empty `locations` array yields file path "" and line 0. -/
theorem c9_missing_locations (r : SarifResult) :
    (extractFirstLocation r).isSome = true
    ∧ ((r.locations = none ∨ r.locations = some []) →
        extractFirstLocation r = some ([], 0)) := by
  obtain ⟨locs⟩ := r
  cases locs with
  | none => exact ⟨rfl, fun _ => rfl⟩
  | some l =>
    cases l with
    | nil => exact ⟨rfl, fun _ => rfl⟩
    | cons x xs =>
      refine ⟨rfl, ?_⟩
      rintro (h | h) <;> simp at h

/-- C9 witness: a result without a `locations` key and a result with an empty
    `locations` array both extract ("", 0). -/
theorem c9_missing_locations_witness :
    extractFirstLocation ⟨none⟩ = some ([], 0)
    ∧ extractFirstLocation ⟨some []⟩ = some ([], 0) :=
  ⟨(c9_missing_locations ⟨none⟩).2 (Or.inl rfl),
    (c9_missing_locations ⟨some []⟩).2 (Or.inr rfl)⟩

/-- The greedy digit run at the head of a string: fails when there is no
    leading digit (models the regex fragment `(\d+)` anchored here). -/
def digitsRun (l : Str) : Option Str :=
  if (l.takeWhile Char.isDigit).isEmpty then none
  else some (l.takeWhile Char.isDigit)

/-- A successful digit run is a non-empty all-digit string. -/
theorem digitsRun_shape (l ds : Str) (h : digitsRun l = some ds) :
    ds ≠ [] ∧ ∀ c ∈ ds, c.isDigit := by
  rw [digitsRun] at h
  split at h
  · exact absurd h (by simp)
  · simp only [Option.some.injEq] at h
    subst h
    refine ⟨?_, fun c hc => List.mem_takeWhile_imp hc⟩
    intro hnil
    simp [List.isEmpty_iff, hnil] at *

/-- Matching `cwe-?(\d+)` (case-insensitive) anchored at the head of the
    string: the letters c, w, e in any case, an optional dash, then at least
    one digit (after a dash with no following digit, backtracking to the
    dash-free alternative also fails, since a dash is not a digit). -/
def matchCweAt (l : Str) : Option Str :=
  match l with
  | c :: w :: e :: rest =>
    if c.toLower = 'c' ∧ w.toLower = 'w' ∧ e.toLower = 'e' then
      if rest.head? = some '-' then digitsRun rest.tail else digitsRun rest
    else none
  | _ => none

/-- `re.search(r"cwe-?(\d+)", tag, re.IGNORECASE)` (line 72): try the
    pattern at every position, left to right, returning the first group. -/
def searchCwe : Str → Option Str
  | [] => none
  | c :: cs =>
    match matchCweAt (c :: cs) with
    | some ds => some ds
    | none => searchCwe cs

/-- `extract_cwe_from_tags` (lines 69-75): return `CWE-` plus the digits of
    the first matching tag, or the empty string. -/
def extract_cwe_from_tags : List Str → Str
  | [] => []
  | t :: ts =>
    match searchCwe t with
    | some ds => str "CWE-" ++ ds
    | none => extract_cwe_from_tags ts

/-- Matching `CWE-(\d+)` (case-insensitive) anchored at the head: the three
    letters, a mandatory dash, then at least one digit. -/
def matchCweTextAt (l : Str) : Option Str :=
  match l with
  | c :: w :: e :: d :: rest =>
    if c.toLower = 'c' ∧ w.toLower = 'w' ∧ e.toLower = 'e' ∧ d = '-' then
      digitsRun rest
    else none
  | _ => none

/-- `re.search(r"CWE-(\d+)", text, re.IGNORECASE)` (line 79). -/
def searchCweText : Str → Option Str
  | [] => none
  | c :: cs =>
    match matchCweTextAt (c :: cs) with
    | some ds => some ds
    | none => searchCweText cs

/-- `extract_cwe_from_text` (lines 77-82). -/
def extract_cwe_from_text (text : Str) : Str :=
  match searchCweText text with
  | some ds => str "CWE-" ++ ds
  | none => []

/-- The cwe computation of the CodeQL adapter (lines 115-118): tags first,
    then fall back to the result's message text. -/
def codeqlCwe (tags : List Str) (messageText : Str) : Str :=
  let cwe := extract_cwe_from_tags tags
  if cwe = [] then extract_cwe_from_text messageText else cwe

/-- The cwe computation of the Semgrep SARIF fallback adapter (lines
    188-189): tags only, no message fallback. -/
def semgrepSarifCwe (tags : List Str) : Str := extract_cwe_from_tags tags

/-- Category extraction as the specification describes it for the
    SARIF-shaped adapters: scan the tags, fall back to the free-text
    message, otherwise empty. -/
def claimedSarifCategoryExtraction (tags : List Str) (messageText : Str) : Str :=
  if extract_cwe_from_tags tags ≠ [] then extract_cwe_from_tags tags
  else if extract_cwe_from_text messageText ≠ [] then
    extract_cwe_from_text messageText
  else []

/-- C4 counterexample: a Semgrep SARIF result with no tags and the message
    "CWE-89" gets category "" from the code, while the claimed
    tag-then-message extraction yields "CWE-89": the Semgrep SARIF adapter
    has no message fallback. -/
theorem c4_semgrep_no_fallback_counterexample :
    semgrepSarifCwe [] ≠ claimedSarifCategoryExtraction [] (str "CWE-89")
    ∧ claimedSarifCategoryExtraction [] (str "CWE-89") = str "CWE-89"
    ∧ semgrepSarifCwe [] = [] := by
  refine ⟨?_, by decide, rfl⟩
  decide

/-- C4 amended: the CodeQL adapter implements exactly the claimed
    tag-scan-then-message-fallback extraction, while the Semgrep SARIF
    fallback adapter only scans the tags: whenever no tag matches it returns
    the empty category, regardless of the message. -/
theorem c4_category_extraction (tags : List Str) (text : Str) :
    codeqlCwe tags text = claimedSarifCategoryExtraction tags text
    ∧ semgrepSarifCwe tags = extract_cwe_from_tags tags
    ∧ (extract_cwe_from_tags tags = [] → semgrepSarifCwe tags = []) := by
  refine ⟨?_, rfl, fun h => h⟩
  by_cases h : extract_cwe_from_tags tags = []
  · simp only [codeqlCwe, claimedSarifCategoryExtraction, h, if_pos,
      ne_eq, not_true_eq_false, if_false, ite_not]
    by_cases ht : extract_cwe_from_text text = []
    · simp [ht]
    · simp [ht]
  · simp [codeqlCwe, claimedSarifCategoryExtraction, h]

/-- C4 witness: with no tags and message "CWE-89" the CodeQL adapter agrees
    with the claimed extraction and the Semgrep SARIF adapter returns "". -/
theorem c4_category_extraction_witness :
    codeqlCwe [] (str "CWE-89") = claimedSarifCategoryExtraction [] (str "CWE-89")
    ∧ semgrepSarifCwe [] = extract_cwe_from_tags []
    ∧ semgrepSarifCwe [] = [] :=
  ⟨(c4_category_extraction [] (str "CWE-89")).1,
    (c4_category_extraction [] (str "CWE-89")).2.1,
    (c4_category_extraction [] (str "CWE-89")).2.2 (by decide)⟩

/-- A successful anchored tag match yields a non-empty all-digit group. -/
theorem matchCweAt_shape (l ds : Str) (h : matchCweAt l = some ds) :
    ds ≠ [] ∧ ∀ c ∈ ds, c.isDigit := by
  cases l with
  | nil => simp [matchCweAt] at h
  | cons c l1 =>
    cases l1 with
    | nil => simp [matchCweAt] at h
    | cons w l2 =>
      cases l2 with
      | nil => simp [matchCweAt] at h
      | cons e rest =>
        rw [matchCweAt] at h
        split at h
        · split at h
          · exact digitsRun_shape _ ds h
          · exact digitsRun_shape _ ds h
        · exact absurd h (by simp)

/-- A successful anchored text match yields a non-empty all-digit group. -/
theorem matchCweTextAt_shape (l ds : Str) (h : matchCweTextAt l = some ds) :
    ds ≠ [] ∧ ∀ c ∈ ds, c.isDigit := by
  cases l with
  | nil => simp [matchCweTextAt] at h
  | cons c l1 =>
    cases l1 with
    | nil => simp [matchCweTextAt] at h
    | cons w l2 =>
      cases l2 with
      | nil => simp [matchCweTextAt] at h
      | cons e l3 =>
        cases l3 with
        | nil => simp [matchCweTextAt] at h
        | cons d rest =>
          rw [matchCweTextAt] at h
          split at h
          · exact digitsRun_shape _ ds h
          · exact absurd h (by simp)

/-- A successful tag search yields a non-empty all-digit group. -/
theorem searchCwe_shape (l : Str) :
    ∀ ds : Str, searchCwe l = some ds → ds ≠ [] ∧ ∀ c ∈ ds, c.isDigit := by
  induction l with
  | nil => intro ds h; simp [searchCwe] at h
  | cons c cs ih =>
    intro ds h
    rw [searchCwe] at h
    cases hm : matchCweAt (c :: cs) with
    | some ds0 =>
      rw [hm] at h
      simp only [Option.some.injEq] at h
      exact h ▸ matchCweAt_shape (c :: cs) ds0 hm
    | none =>
      rw [hm] at h
      exact ih ds h

/-- A successful text search yields a non-empty all-digit group. -/
theorem searchCweText_shape (l : Str) :
    ∀ ds : Str, searchCweText l = some ds → ds ≠ [] ∧ ∀ c ∈ ds, c.isDigit := by
  induction l with
  | nil => intro ds h; simp [searchCweText] at h
  | cons c cs ih =>
    intro ds h
    rw [searchCweText] at h
    cases hm : matchCweTextAt (c :: cs) with
    | some ds0 =>
      rw [hm] at h
      simp only [Option.some.injEq] at h
      exact h ▸ matchCweTextAt_shape (c :: cs) ds0 hm
    | none =>
      rw [hm] at h
      exact ih ds h

/-- The tag extractor returns "" or "CWE-" followed by a non-empty run of
    digits. -/
theorem extract_cwe_from_tags_shape (tags : List Str) :
    extract_cwe_from_tags tags = [] ∨
      ∃ ms : Str, ms ≠ [] ∧ (∀ c ∈ ms, c.isDigit) ∧
        extract_cwe_from_tags tags = str "CWE-" ++ ms := by
  induction tags with
  | nil => exact Or.inl rfl
  | cons t ts ih =>
    cases hm : searchCwe t with
    | none =>
      rw [extract_cwe_from_tags, hm]
      exact ih
    | some ds =>
      obtain ⟨hne, hdig⟩ := searchCwe_shape t ds hm
      exact Or.inr ⟨ds, hne, hdig, by rw [extract_cwe_from_tags, hm]⟩

/-- The text extractor returns "" or "CWE-" followed by a non-empty run of
    digits. -/
theorem extract_cwe_from_text_shape (text : Str) :
    extract_cwe_from_text text = [] ∨
      ∃ ms : Str, ms ≠ [] ∧ (∀ c ∈ ms, c.isDigit) ∧
        extract_cwe_from_text text = str "CWE-" ++ ms := by
  cases hm : searchCweText text with
  | none => exact Or.inl (by rw [extract_cwe_from_text, hm])
  | some ds =>
    obtain ⟨hne, hdig⟩ := searchCweText_shape text ds hm
    exact Or.inr ⟨ds, hne, hdig, by rw [extract_cwe_from_text, hm]⟩

/-- The cwe computation of the Dependency-Check adapter (lines 247-249):
    the literal "CWE-" prefix glued onto the first element of the `cwes`
    list, with no pattern extraction. -/
def depcheckCwe (cwes : List Str) : Str :=
  match cwes with
  | [] => []
  | c :: _ => str "CWE-" ++ c

/-- No string of the form "CWE-CWE-<suffix>" is ever produced by the tag
    extractor: its non-empty outputs are "CWE-" plus digits only, and the
    character C is not a digit. -/
theorem extract_cwe_from_tags_ne_double (tags : List Str) (ds : Str) :
    extract_cwe_from_tags tags ≠ str "CWE-" ++ (str "CWE-" ++ ds) := by
  rcases extract_cwe_from_tags_shape tags with h | ⟨ms, hne, hdig, h⟩
  · rw [h]
    intro heq
    have := congrArg List.length heq
    simp [str] at this
  · rw [h]
    intro heq
    have hms : ms = str "CWE-" ++ ds := List.append_cancel_left heq
    have hC : 'C' ∈ ms := by
      rw [hms]
      exact List.mem_append_left ds (by decide)
    exact absurd (hdig 'C' hC) (by decide)

/-- Same for the text extractor. -/
theorem extract_cwe_from_text_ne_double (text : Str) (ds : Str) :
    extract_cwe_from_text text ≠ str "CWE-" ++ (str "CWE-" ++ ds) := by
  rcases extract_cwe_from_text_shape text with h | ⟨ms, hne, hdig, h⟩
  · rw [h]
    intro heq
    have := congrArg List.length heq
    simp [str] at this
  · rw [h]
    intro heq
    have hms : ms = str "CWE-" ++ ds := List.append_cancel_left heq
    have hC : 'C' ∈ ms := by
      rw [hms]
      exact List.mem_append_left ds (by decide)
    exact absurd (hdig 'C' hC) (by decide)

/-- C10: the Dependency-Check adapter's category is the literal "CWE-"
    prefix glued onto the first cwes element; when that element already has
    the form "CWE-<suffix>" the result is "CWE-CWE-<suffix>", which neither
    the tag extractor nor the text extractor can ever produce. -/
theorem c10_depcheck_double_cwe (c ds : Str) (rest tags : List Str)
    (text : Str) :
    depcheckCwe (c :: rest) = str "CWE-" ++ c
    ∧ depcheckCwe ((str "CWE-" ++ ds) :: rest) = str "CWE-" ++ (str "CWE-" ++ ds)
    ∧ extract_cwe_from_tags tags ≠ str "CWE-" ++ (str "CWE-" ++ ds)
    ∧ extract_cwe_from_text text ≠ str "CWE-" ++ (str "CWE-" ++ ds) :=
  ⟨rfl, rfl, extract_cwe_from_tags_ne_double tags ds,
    extract_cwe_from_text_ne_double text ds⟩
